import Mathlib

/-!
Verification development for the course-upload service.

The service (an Express application) ingests an uploaded document, derives a
structured course artifact from it through a generative-model call, persists
the artifact, and then — in a detached background task — derives a Q&A set and
a flashcard set from the artifact and updates the same record.

This file shallowly embeds the relevant parts of the source:

* `Json`, `jsonParse`, `Json.stringify` — model of JavaScript's `JSON.parse`
  and `JSON.stringify` restricted to values that were themselves produced by
  parsing (numbers keep their source lexeme; this does not affect any theorem
  below, which only ever compare serializations definitionally).
* `splitOnFirst`, `matchFence`, `extractCandidate`, `parseAIResponse` — model
  of the `parseAIResponse` utility and its two regular expressions.
* `GenAIEnv`, `analyzeFile`, `qna`, `generateFlashcards` — the three
  generative calls, with the model capability abstracted as an environment
  that maps each call's input to either a textual reply or a failure.
* `CourseRec`, `DB`, `uploadSync`, `backgroundTask`, `uploadHandler`,
  `getCourses`, `getCourseById` — the upload pipeline, the background
  enrichment task and the two read endpoints over the course store.

Strings are modelled as `List Char` so that matching and splitting can be
reasoned about by structural induction.
-/

namespace GGB

/-- Strings, modelled as lists of characters. -/
abbrev Str := List Char

/-- The left curly bracket character, used by the JSON grammar. -/
def lbrace : Char := Char.ofNat 123

/-- The right curly bracket character, used by the JSON grammar. -/
def rbrace : Char := Char.ofNat 125

/-- JSON values.  A number keeps its validated source lexeme: the pipeline
never computes with numeric values, it only decodes and re-serializes them. -/
inductive Json where
  | null : Json
  | boolVal (b : Bool) : Json
  | numVal (lexeme : Str) : Json
  | strVal (s : Str) : Json
  | arrVal (items : List Json) : Json
  | objVal (fields : List (Str × Json)) : Json

/-- JSON whitespace characters (`JSON.parse` skips exactly these). -/
def isJsonWs (c : Char) : Bool :=
  c = ' ' || c = '\t' || c = '\n' || c = '\r'

/-- Drop leading JSON whitespace. -/
def skipWs : Str → Str
  | [] => []
  | c :: rest => if isJsonWs c then skipWs rest else c :: rest

/-- Value of a hexadecimal digit. -/
def hexDigitVal (c : Char) : Option Nat :=
  if '0' ≤ c ∧ c ≤ '9' then some (c.toNat - 48)
  else if 'a' ≤ c ∧ c ≤ 'f' then some (c.toNat - 87)
  else if 'A' ≤ c ∧ c ≤ 'F' then some (c.toNat - 55)
  else none

/-- Prepend a character to the string component of a partial parse. -/
def consHead (c : Char) : Option (Str × Str) → Option (Str × Str)
  | none => none
  | some (s, rest) => some (c :: s, rest)

/-- Parse the remainder of a JSON string literal (the opening quote has
already been consumed), decoding escapes, and return the decoded characters
together with the input following the closing quote. -/
def parseJsonStr : Nat → Str → Option (Str × Str)
  | 0, _ => none
  | _ + 1, [] => none
  | fuel + 1, c :: rest =>
    if c = '"' then some ([], rest)
    else if c = '\\' then
      match rest with
      | [] => none
      | e :: rest2 =>
        if e = '"' then consHead '"' (parseJsonStr fuel rest2)
        else if e = '\\' then consHead '\\' (parseJsonStr fuel rest2)
        else if e = '/' then consHead '/' (parseJsonStr fuel rest2)
        else if e = 'b' then consHead (Char.ofNat 8) (parseJsonStr fuel rest2)
        else if e = 'f' then consHead (Char.ofNat 12) (parseJsonStr fuel rest2)
        else if e = 'n' then consHead '\n' (parseJsonStr fuel rest2)
        else if e = 'r' then consHead '\r' (parseJsonStr fuel rest2)
        else if e = 't' then consHead '\t' (parseJsonStr fuel rest2)
        else if e = 'u' then
          match rest2 with
          | h1 :: h2 :: h3 :: h4 :: rest3 =>
            match hexDigitVal h1, hexDigitVal h2, hexDigitVal h3, hexDigitVal h4 with
            | some a, some b, some c2, some d =>
              consHead (Char.ofNat (a * 4096 + b * 256 + c2 * 16 + d))
                (parseJsonStr fuel rest3)
            | _, _, _, _ => none
          | _ => none
        else none
    else if c.toNat < 32 then none
    else consHead c (parseJsonStr fuel rest)

/-- Longest leading run of decimal digits. -/
def spanDigits : Str → Str × Str
  | [] => ([], [])
  | c :: rest =>
    if c.isDigit then
      let pr := spanDigits rest
      (c :: pr.1, pr.2)
    else ([], c :: rest)

/-- Integer part of a JSON number: `0`, or a nonzero digit followed by
digits (leading zeros are rejected, as in `JSON.parse`). -/
def parseIntPart : Str → Option (Str × Str)
  | [] => none
  | c :: rest =>
    if c = '0' then some (['0'], rest)
    else if c.isDigit then
      let pr := spanDigits rest
      some (c :: pr.1, pr.2)
    else none

/-- Optional fractional part `.digits` of a JSON number. -/
def parseFracPart (s : Str) : Option (Str × Str) :=
  match s with
  | '.' :: rest =>
    match spanDigits rest with
    | ([], _) => none
    | (ds, r) => some ('.' :: ds, r)
  | _ => some ([], s)

/-- Optional exponent part `[eE][+-]?digits` of a JSON number. -/
def parseExpPart (s : Str) : Option (Str × Str) :=
  match s with
  | [] => some ([], [])
  | c :: rest =>
    if c = 'e' ∨ c = 'E' then
      let sp : Str × Str :=
        match rest with
        | '+' :: r => (['+'], r)
        | '-' :: r => (['-'], r)
        | r => ([], r)
      match spanDigits sp.2 with
      | ([], _) => none
      | (ds, r) => some (c :: sp.1 ++ ds, r)
    else some ([], c :: rest)

/-- A JSON number lexeme: optional minus, integer part, optional fraction,
optional exponent.  Returns the lexeme and the rest of the input. -/
def parseNumber (s : Str) : Option (Str × Str) :=
  let sp : Str × Str :=
    match s with
    | '-' :: r => (['-'], r)
    | _ => ([], s)
  match parseIntPart sp.2 with
  | none => none
  | some (ip, s2) =>
    match parseFracPart s2 with
    | none => none
    | some (fp, s3) =>
      match parseExpPart s3 with
      | none => none
      | some (ep, s4) => some (sp.1 ++ ip ++ fp ++ ep, s4)

mutual

/-- Parse one JSON value (fuelled recursive-descent). -/
def parseValue : Nat → Str → Option (Json × Str)
  | 0, _ => none
  | fuel + 1, s =>
    match skipWs s with
    | [] => none
    | c :: rest =>
      if c = '"' then
        match parseJsonStr (rest.length + 1) rest with
        | none => none
        | some (str, r) => some (Json.strVal str, r)
      else if c = lbrace then parseObjectBody fuel (skipWs rest)
      else if c = '[' then parseArrayBody fuel (skipWs rest)
      else if c = 't' then
        match rest with
        | 'r' :: 'u' :: 'e' :: r => some (Json.boolVal true, r)
        | _ => none
      else if c = 'f' then
        match rest with
        | 'a' :: 'l' :: 's' :: 'e' :: r => some (Json.boolVal false, r)
        | _ => none
      else if c = 'n' then
        match rest with
        | 'u' :: 'l' :: 'l' :: r => some (Json.null, r)
        | _ => none
      else
        match parseNumber (c :: rest) with
        | none => none
        | some (lx, r) => some (Json.numVal lx, r)

/-- Parse an array body (the `[` and following whitespace are consumed). -/
def parseArrayBody : Nat → Str → Option (Json × Str)
  | 0, _ => none
  | fuel + 1, s =>
    match s with
    | ']' :: rest => some (Json.arrVal [], rest)
    | _ =>
      match parseArrayItems fuel s with
      | none => none
      | some (items, r) => some (Json.arrVal items, r)

/-- Parse one-or-more comma-separated array items up to the closing `]`. -/
def parseArrayItems : Nat → Str → Option (List Json × Str)
  | 0, _ => none
  | fuel + 1, s =>
    match parseValue fuel s with
    | none => none
    | some (v, rest) =>
      match skipWs rest with
      | ',' :: rest2 =>
        match parseArrayItems fuel rest2 with
        | none => none
        | some (items, r) => some (v :: items, r)
      | ']' :: rest2 => some ([v], rest2)
      | _ => none

/-- Parse an object body (the opening brace and following whitespace are
consumed). -/
def parseObjectBody : Nat → Str → Option (Json × Str)
  | 0, _ => none
  | fuel + 1, s =>
    match s with
    | [] => none
    | c :: rest =>
      if c = rbrace then some (Json.objVal [], rest)
      else
        match parseObjectItems fuel (c :: rest) with
        | none => none
        | some (fields, r) => some (Json.objVal fields, r)

/-- Parse one-or-more comma-separated `"key": value` members up to the
closing brace. -/
def parseObjectItems : Nat → Str → Option (List (Str × Json) × Str)
  | 0, _ => none
  | fuel + 1, s =>
    match skipWs s with
    | '"' :: rest =>
      match parseJsonStr (rest.length + 1) rest with
      | none => none
      | some (key, rest2) =>
        match skipWs rest2 with
        | ':' :: rest3 =>
          match parseValue fuel rest3 with
          | none => none
          | some (v, rest4) =>
            match skipWs rest4 with
            | [] => none
            | c :: rest5 =>
              if c = ',' then
                match parseObjectItems fuel rest5 with
                | none => none
                | some (fields, r) => some ((key, v) :: fields, r)
              else if c = rbrace then some ([(key, v)], rest5)
              else none
        | _ => none
    | _ => none

end

/-- Model of `JSON.parse`: parse one value, then require that only
whitespace remains; `none` models a thrown `SyntaxError`. -/
def jsonParse (s : Str) : Option Json :=
  match parseValue (2 * s.length + 2) s with
  | none => none
  | some (v, rest) => if skipWs rest = [] then some v else none

/-- Hexadecimal digit character (lower case, as `JSON.stringify` emits). -/
def hexDigitChar (n : Nat) : Char :=
  if n < 10 then Char.ofNat (48 + n) else Char.ofNat (87 + n)

/-- Escape one character for a JSON string literal. -/
def escapeChar (c : Char) : Str :=
  if c = '"' then ['\\', '"']
  else if c = '\\' then ['\\', '\\']
  else if c = Char.ofNat 8 then ['\\', 'b']
  else if c = Char.ofNat 12 then ['\\', 'f']
  else if c = '\n' then ['\\', 'n']
  else if c = '\r' then ['\\', 'r']
  else if c = '\t' then ['\\', 't']
  else if c.toNat < 32 then
    ['\\', 'u', '0', '0', hexDigitChar (c.toNat / 16), hexDigitChar (c.toNat % 16)]
  else [c]

/-- Escape a whole string for a JSON string literal. -/
def escapeStr (s : Str) : Str :=
  s.foldr (fun c acc => escapeChar c ++ acc) []

mutual

/-- Model of `JSON.stringify` (no indentation argument, as in the source):
numbers render as their lexeme, object members keep insertion order. -/
def Json.stringify : Json → Str
  | .null => "null".data
  | .boolVal true => "true".data
  | .boolVal false => "false".data
  | .numVal lx => lx
  | .strVal s => '"' :: (escapeStr s ++ ['"'])
  | .arrVal items => '[' :: (stringifyItems items ++ [']'])
  | .objVal fields => lbrace :: (stringifyFields fields ++ [rbrace])

/-- Comma-separated serialization of array items. -/
def stringifyItems : List Json → Str
  | [] => []
  | [x] => Json.stringify x
  | x :: y :: rest => Json.stringify x ++ ',' :: stringifyItems (y :: rest)

/-- Comma-separated serialization of object members. -/
def stringifyFields : List (Str × Json) → Str
  | [] => []
  | [(k, v)] => '"' :: (escapeStr k ++ '"' :: ':' :: Json.stringify v)
  | (k, v) :: f :: rest =>
    ('"' :: (escapeStr k ++ '"' :: ':' :: Json.stringify v)) ++
      ',' :: stringifyFields (f :: rest)

end

/-- JavaScript property access `o.k` on a decoded JSON value: on an object,
the value of the last member named `k` (later duplicates win, as in the
object built by `JSON.parse`); `none` models `undefined`. -/
def Json.getField : Json → Str → Option Json
  | .objVal fields, k =>
    fields.foldl (fun acc f => if f.1 = k then some f.2 else acc) none
  | _, _ => none

/-! ### The fence-stripping regular expressions of `parseAIResponse`

The source tries `/(three backticks)json\n([\s\S]*?)\n(three backticks)/`
first and, failing that, the same expression without the `json` label.
`String.prototype.match` returns the leftmost match, and the lazy group
takes the shortest text up to the first closing fence.  `splitOnFirst`
realizes exactly that: split at the first occurrence of a pattern. -/

/-- Split a list at the first occurrence of `pat`: `some (pre, post)` with
`s = pre ++ pat ++ post` and `pre` shortest, `none` when `pat` does not
occur in `s`. -/
def splitOnFirst (pat : Str) : Str → Option (Str × Str)
  | [] => if pat.isPrefixOf [] then some ([], []) else none
  | c :: rest =>
    if pat.isPrefixOf (c :: rest) then some ([], (c :: rest).drop pat.length)
    else
      match splitOnFirst pat rest with
      | none => none
      | some (pre, post) => some (c :: pre, post)

/-- The opening fence of the labeled block: three backticks, `json`, newline. -/
def jsonOpen : Str := "```json\n".data

/-- The opening fence of the unlabeled block: three backticks, newline. -/
def plainOpen : Str := "```\n".data

/-- The closing fence: newline, three backticks. -/
def fenceClose : Str := "\n```".data

/-- Three backticks — the fence delimiter itself. -/
def fenceTicks : Str := "```".data

/-- The capture of `/opener([\s\S]*?)\n(three backticks)/` against `s`:
leftmost occurrence of the opener, then the shortest text up to the next
closing fence. -/
def matchFence (opener : Str) (s : Str) : Option Str :=
  match splitOnFirst opener s with
  | none => none
  | some (_, afterOpen) =>
    match splitOnFirst fenceClose afterOpen with
    | none => none
    | some (cap, _) => some cap

/-- The candidate string handed to `JSON.parse`: the capture of the
`json`-labeled fence expression if it matches, else the capture of the
unlabeled one, else the whole text (`jsonMatch ? jsonMatch[1] : aiResponse`). -/
def extractCandidate (s : Str) : Str :=
  match matchFence jsonOpen s with
  | some c => c
  | none =>
    match matchFence plainOpen s with
    | some c => c
    | none => s

/-- Failure modes of the pipeline (section 7 taxonomy): a failed model call
and a model reply that did not decode. -/
inductive PipelineError where
  | modelUnavailable : PipelineError
  | malformedResponse : PipelineError
deriving DecidableEq

/-- Model of `parseAIResponse`: strip an optional fenced block, then
`JSON.parse`; any decode failure is rethrown as the single error
`"Failed to parse AI response"` (`malformedResponse`). -/
def parseAIResponse (aiResponse : Str) : Except PipelineError Json :=
  match jsonParse (extractCandidate aiResponse) with
  | some v => Except.ok v
  | none => Except.error PipelineError.malformedResponse

/-! ### The model capability and the three generative calls

The generative model is an external collaborator: an environment maps each
call's input to either the textual reply or a `modelUnavailable` failure.
Each of `analyzeFile`, `qna` and `generateFlashcards` submits its fixed
prompt together with its input and feeds the reply to `parseAIResponse`. -/

/-- Replies of the model capability for the three call sites, as functions
of the data each call submits. -/
structure GenAIEnv where
  analyzeReply : Str → Str → Except PipelineError Str
  qnaReply : Str → Except PipelineError Str
  flashReply : Str → Except PipelineError Str

/-- Model of `analyzeFile(fileBuffer, mimeType)`: one model exchange with
the file attached, reply fed to `parseAIResponse`. -/
def analyzeFile (env : GenAIEnv) (fileBuffer mimeType : Str) :
    Except PipelineError Json :=
  match env.analyzeReply fileBuffer mimeType with
  | Except.error e => Except.error e
  | Except.ok text => parseAIResponse text

/-- Model of `qna(courseContent)`: one model exchange, reply fed to
`parseAIResponse`. -/
def qna (env : GenAIEnv) (courseContent : Str) : Except PipelineError Json :=
  match env.qnaReply courseContent with
  | Except.error e => Except.error e
  | Except.ok text => parseAIResponse text

/-- Model of `generateFlashcards(courseContent)`: one model exchange, reply
fed to `parseAIResponse`. -/
def generateFlashcards (env : GenAIEnv) (courseContent : Str) :
    Except PipelineError Json :=
  match env.flashReply courseContent with
  | Except.error e => Except.error e
  | Except.ok text => parseAIResponse text

/-! ### The course store -/

/-- The pending sentinel: the schema default `"loading"` of the `qna` and
`flashCard` fields. -/
def pendingSentinel : Str := "loading".data

/-- A persisted course document (`courseSchema`): `title` and the `json`
content as set by the upload handler, `qna`/`flashCard` defaulting to the
pending sentinel, `user` the owner's identifier, `id` assigned by the
store. -/
structure CourseRec where
  id : Nat
  title : Option Json
  json : Str
  qna : Str
  flashCard : Str
  user : Nat

/-- The document store: the persisted course documents plus the next fresh
identifier. -/
structure DB where
  courses : List CourseRec
  nextId : Nat

/-- All persisted identifiers are below `nextId` (so a fresh insert never
collides). -/
def DB.freshIds (db : DB) : Prop :=
  ∀ r ∈ db.courses, r.id < db.nextId

/-- First `save()` of a new document: assign a fresh id and append. -/
def DB.insert (db : DB) (title : Option Json) (json : Str) (user : Nat) :
    DB × CourseRec :=
  let doc : CourseRec :=
    { id := db.nextId, title := title, json := json,
      qna := pendingSentinel, flashCard := pendingSentinel, user := user }
  ({ courses := db.courses ++ [doc], nextId := db.nextId + 1 }, doc)

/-- `save()` on an already-persisted document: replace the stored document
with the same id. -/
def DB.saveById (db : DB) (rec : CourseRec) : DB :=
  { db with courses := db.courses.map (fun r => if r.id = rec.id then rec else r) }

/-- `Course.find({user}).select("title _id")`: the `(id, title)` pairs of
the caller's documents. -/
def getCourses (db : DB) (userId : Nat) : List (Nat × Option Json) :=
  (db.courses.filter (fun r => r.user == userId)).map (fun r => (r.id, r.title))

/-- `Course.findOne({_id, user})`: the document matching both the id and
the caller, or `none` (the 404 branch). -/
def getCourseById (db : DB) (userId : Nat) (courseId : Nat) : Option CourseRec :=
  db.courses.find? (fun r => r.id == courseId && r.user == userId)

/-! ### The upload pipeline -/

/-- What the upload request answers: the success payload
`{courseId, course}` or the 500 failure (`"Upload failed"`). -/
inductive UploadResponse where
  | success (courseId : Nat) (course : Json) : UploadResponse
  | failure : UploadResponse

/-- Observable steps of the detached background task, in order. -/
inductive BgEvent where
  | qnaAttempt : BgEvent
  | flashAttempt : BgEvent
  | saveWrite : BgEvent
deriving DecidableEq

/-- The key `courseTitle` accessed on the analysis result. -/
def courseTitleKey : Str := "courseTitle".data

/-- Synchronous stage of `app.post("/upload")`: analyze, build the document
(`title` from `courseData.courseTitle`, `json` from
`JSON.stringify(courseData)`, `user` from the caller), persist it, answer
the caller.  On an analysis failure nothing is persisted and the caller
gets the failure.  Also returns the data the detached task closes over. -/
def uploadSync (env : GenAIEnv) (userId : Nat) (fileBuffer mimeType : Str)
    (db : DB) : UploadResponse × DB × Option (Json × CourseRec) :=
  match analyzeFile env fileBuffer mimeType with
  | Except.error _ => (UploadResponse.failure, db, none)
  | Except.ok courseData =>
    let ins := db.insert (courseData.getField courseTitleKey)
      (Json.stringify courseData) userId
    (UploadResponse.success ins.2.id courseData, ins.1, some (courseData, ins.2))

/-- The detached background task (the fire-and-forget async function of the
upload handler): derive the Q&A set, then the flashcards, then set both
fields and `save()` once; any thrown error is caught and only logged, so
the store is left untouched from the point of the throw on. -/
def backgroundTask (env : GenAIEnv) (courseData : Json) (course : CourseRec)
    (db : DB) : DB × List BgEvent :=
  let courseContentString := Json.stringify courseData
  match qna env courseContentString with
  | Except.error _ => (db, [BgEvent.qnaAttempt])
  | Except.ok qnaResult =>
    match generateFlashcards env courseContentString with
    | Except.error _ => (db, [BgEvent.qnaAttempt, BgEvent.flashAttempt])
    | Except.ok flashcardsResult =>
      let updated := { course with qna := Json.stringify qnaResult,
                                   flashCard := Json.stringify flashcardsResult }
      (db.saveById updated,
       [BgEvent.qnaAttempt, BgEvent.flashAttempt, BgEvent.saveWrite])

/-- A whole upload request: the synchronous stage followed (after the
response is already fixed) by the detached background task. -/
def uploadHandler (env : GenAIEnv) (userId : Nat) (fileBuffer mimeType : Str)
    (db : DB) : UploadResponse × DB × List BgEvent :=
  match uploadSync env userId fileBuffer mimeType db with
  | (resp, db1, none) => (resp, db1, [])
  | (resp, db1, some (courseData, course)) =>
    let bg := backgroundTask env courseData course db1
    (resp, bg.1, bg.2)

/-- The document the upload handler persists for analysis result `cd` and
caller `userId` (named for reuse in the statements below; it is exactly the
record built inside `uploadSync`). -/
def createdRec (db : DB) (cd : Json) (userId : Nat) : CourseRec :=
  { id := db.nextId, title := cd.getField courseTitleKey,
    json := Json.stringify cd, qna := pendingSentinel,
    flashCard := pendingSentinel, user := userId }

/-! ### Concrete environments and stores used to instantiate the theorems -/

/-- The empty store. -/
def dbEmpty : DB := { courses := [], nextId := 0 }

/-- An environment where the analysis reply decodes but the Q&A call fails. -/
def envC1 : GenAIEnv :=
  { analyzeReply := fun _ _ => Except.ok "0".data,
    qnaReply := fun _ => Except.error PipelineError.modelUnavailable,
    flashReply := fun _ => Except.ok "0".data }

/-- An environment where all three calls reply with decodable texts. -/
def envOk : GenAIEnv :=
  { analyzeReply := fun _ _ => Except.ok "0".data,
    qnaReply := fun _ => Except.ok "1".data,
    flashReply := fun _ => Except.ok "2".data }

/-- An environment where the analysis call itself fails. -/
def envBad : GenAIEnv :=
  { analyzeReply := fun _ _ => Except.error PipelineError.modelUnavailable,
    qnaReply := fun _ => Except.error PipelineError.modelUnavailable,
    flashReply := fun _ => Except.error PipelineError.modelUnavailable }

/-- A document owned by user 0. -/
def recA : CourseRec :=
  { id := 0, title := none, json := ['0'], qna := pendingSentinel,
    flashCard := pendingSentinel, user := 0 }

/-- A store holding only `recA`. -/
def dbA : DB := { courses := [recA], nextId := 1 }

/-! ## Lemmas about `splitOnFirst` (leftmost-match semantics) -/

/-- A prefix splits its host: `s = pat ++ s.drop pat.length`. -/
theorem prefix_append_drop {pat s : Str} (h : pat.isPrefixOf s) :
    s = pat ++ s.drop pat.length := by
  rcases List.isPrefixOf_iff_prefix.mp h with ⟨t, rfl⟩
  rw [List.drop_left]

/-- Soundness: a successful split is a decomposition of the input. -/
theorem splitOnFirst_some {pat : Str} :
    ∀ {s pre post : Str}, splitOnFirst pat s = some (pre, post) →
      s = pre ++ pat ++ post := by
  intro s
  induction s with
  | nil =>
    intro pre post h
    rw [splitOnFirst] at h
    split at h
    · rename_i hp
      obtain ⟨rfl, rfl⟩ : pre = [] ∧ post = [] := by
        constructor <;> (cases h; rfl)
      have : pat = [] := by
        have := List.isPrefixOf_iff_prefix.mp hp
        simpa using this.length_le
      simp [this]
    · exact absurd h (by simp)
  | cons c rest ih =>
    intro pre post h
    rw [splitOnFirst] at h
    split at h
    · rename_i hp
      obtain ⟨rfl, rfl⟩ : pre = [] ∧ post = (c :: rest).drop pat.length := by
        constructor <;> (cases h; rfl)
      simpa using prefix_append_drop hp
    · rename_i hp
      cases hrec : splitOnFirst pat rest with
      | none => rw [hrec] at h; exact absurd h (by simp)
      | some pr =>
        rw [hrec] at h
        obtain ⟨pre', post'⟩ := pr
        obtain ⟨rfl, rfl⟩ : pre = c :: pre' ∧ post = post' := by
          constructor <;> (cases h; rfl)
        have := ih hrec
        simp [this]

/-- Leftmost match: no occurrence of the pattern starts strictly before the
returned split point. -/
theorem splitOnFirst_first {pat : Str} :
    ∀ {s pre post : Str}, splitOnFirst pat s = some (pre, post) →
      ∀ k, k < pre.length → pat.isPrefixOf (s.drop k) = false := by
  intro s
  induction s with
  | nil =>
    intro pre post h k hk
    rw [splitOnFirst] at h
    split at h
    · obtain rfl : pre = [] := by cases h; rfl
      simp at hk
    · exact absurd h (by simp)
  | cons c rest ih =>
    intro pre post h k hk
    rw [splitOnFirst] at h
    split at h
    · obtain rfl : pre = [] := by cases h; rfl
      simp at hk
    · rename_i hp
      cases hrec : splitOnFirst pat rest with
      | none => rw [hrec] at h; exact absurd h (by simp)
      | some pr =>
        rw [hrec] at h
        obtain ⟨pre', post'⟩ := pr
        obtain ⟨rfl, rfl⟩ : pre = c :: pre' ∧ post = post' := by
          constructor <;> (cases h; rfl)
        cases k with
        | zero =>
          simp only [List.drop_zero]
          cases hb : pat.isPrefixOf (c :: rest) with
          | false => rfl
          | true => exact absurd hb hp
        | succ k' =>
          have hk' : k' < pre'.length := by simpa using hk
          simpa using ih hrec k' hk'

/-- Completeness: a decomposition whose prefix part contains no earlier
occurrence of the pattern is what `splitOnFirst` returns. -/
theorem splitOnFirst_of_first (pat : Str) :
    ∀ (pre post : Str),
      (∀ k, k < pre.length →
        pat.isPrefixOf ((pre ++ pat ++ post).drop k) = false) →
      splitOnFirst pat (pre ++ pat ++ post) = some (pre, post) := by
  intro pre
  induction pre with
  | nil =>
    intro post _
    show splitOnFirst pat (pat ++ post) = some ([], post)
    have hp : pat.isPrefixOf (pat ++ post) = true :=
      List.isPrefixOf_iff_prefix.mpr (List.prefix_append pat post)
    cases hs : pat ++ post with
    | nil =>
      have hpat : pat = [] := by
        cases pat with
        | nil => rfl
        | cons a l => simp at hs
      have hpost : post = [] := by
        rw [hpat] at hs; simpa using hs
      subst hpat; subst hpost; rfl
    | cons c cs =>
      rw [splitOnFirst, ← hs, hp]
      simp [List.drop_left]
  | cons c pre' ih =>
    intro post hfirst
    have h0 : pat.isPrefixOf (c :: (pre' ++ pat ++ post)) = false := by
      simpa using hfirst 0 (by simp)
    show splitOnFirst pat (c :: (pre' ++ pat ++ post)) = some (c :: pre', post)
    rw [splitOnFirst, h0]
    simp only [Bool.false_eq_true, if_false]
    rw [ih post (by
      intro k hk
      simpa using hfirst (k + 1) (by simpa using Nat.succ_lt_succ hk))]

/-- When the pattern occurs right at the start, `splitOnFirst` splits there. -/
theorem splitOnFirst_prefix_self (pat rest : Str) :
    splitOnFirst pat (pat ++ rest) = some ([], rest) :=
  splitOnFirst_of_first pat [] rest (by intro k hk; simp at hk)

/-- A prefix of an append no longer than the left part is a prefix of the
left part. -/
theorem prefix_of_prefix_append {p x y : Str} (h : p <+: x ++ y)
    (hlen : p.length ≤ x.length) : p <+: x := by
  have hp := List.prefix_iff_eq_take.mp h
  rw [List.take_append_eq_append_take, Nat.sub_eq_zero_of_le hlen] at hp
  simp only [List.take_zero, List.append_nil] at hp
  rw [hp]
  exact List.take_prefix _ _

/-- A prefix of an append longer than the left part covers the left part
and continues with a nonempty prefix of the right part. -/
theorem prefix_append_split {p x y : Str} (h : p <+: x ++ y)
    (hlen : x.length < p.length) :
    p = x ++ p.drop x.length ∧ p.drop x.length <+: y ∧ p.drop x.length ≠ [] := by
  obtain ⟨t, ht⟩ := h
  have hx : p.take x.length = x := by
    have h1 := congrArg (fun l => l.take x.length) ht
    simp only at h1
    rw [List.take_append_eq_append_take, List.take_append_eq_append_take,
      Nat.sub_eq_zero_of_le (Nat.le_of_lt hlen), Nat.sub_self] at h1
    simpa using h1
  refine ⟨?_, ?_, ?_⟩
  · conv_lhs => rw [← List.take_append_drop x.length p]
    rw [hx]
  · have h2 := congrArg (fun l => l.drop x.length) ht
    simp only at h2
    rw [List.drop_append_eq_append_drop, List.drop_append_eq_append_drop,
      Nat.sub_eq_zero_of_le (Nat.le_of_lt hlen), Nat.sub_self] at h2
    simp only [List.drop_length, List.drop_zero, List.nil_append] at h2
    exact ⟨t, h2⟩
  · intro hnil
    have := congrArg List.length hnil
    simp only [List.length_drop, List.length_nil] at this
    omega

/-- An occurrence inside an append comes from the left part, the right
part, or spans the boundary (a nonempty suffix of the left glued to a
nonempty prefix of the right). -/
theorem infix_append_cases {pat a b : Str} (h : pat <:+: a ++ b) :
    pat <:+: a ∨ pat <:+: b ∨
      ∃ p₁ p₂, pat = p₁ ++ p₂ ∧ p₁ ≠ [] ∧ p₂ ≠ [] ∧ p₁ <:+ a ∧ p₂ <+: b := by
  induction a with
  | nil => exact Or.inr (Or.inl (by simpa using h))
  | cons c a' ih =>
    rw [List.cons_append, List.infix_cons_iff] at h
    rcases h with hpre | hinf
    · have hpre' : pat <+: (c :: a') ++ b := by simpa using hpre
      by_cases hle : pat.length ≤ (c :: a').length
      · exact Or.inl (prefix_of_prefix_append hpre' hle).isInfix
      · push_neg at hle
        obtain ⟨hsplit, hpref, hne⟩ := prefix_append_split hpre' hle
        exact Or.inr (Or.inr ⟨c :: a', pat.drop (c :: a').length, hsplit, by simp, hne,
          List.suffix_refl _, hpref⟩)
    · rcases ih hinf with h1 | h2 | h3
      · exact Or.inl (List.infix_cons h1)
      · exact Or.inr (Or.inl h2)
      · obtain ⟨p₁, p₂, hsplit, hp₁, hp₂, hsuf, hpref⟩ := h3
        exact Or.inr (Or.inr ⟨p₁, p₂, hsplit, hp₁, hp₂,
          hsuf.trans (List.suffix_cons c a'), hpref⟩)

/-! ## Lemmas about the fence expressions on wrapped texts -/

/-- Composing the two splits inside `matchFence`. -/
theorem matchFence_eq {opener s pre after cap post : Str}
    (h1 : splitOnFirst opener s = some (pre, after))
    (h2 : splitOnFirst fenceClose after = some (cap, post)) :
    matchFence opener s = some cap := by
  simp only [matchFence, h1, h2]

/-- A `matchFence` failure follows from the opener not occurring at all. -/
theorem matchFence_eq_none {opener s : Str} (h : ¬ opener <:+: s) :
    matchFence opener s = none := by
  unfold matchFence
  cases hsp : splitOnFirst opener s with
  | none => rfl
  | some pr =>
    exfalso
    obtain ⟨pre, post⟩ := pr
    exact h ⟨pre, post, by simpa using (splitOnFirst_some hsp).symm⟩

/-- In a text free of the fence delimiter, the first closing fence of
`t ++ fenceClose` is the appended one. -/
theorem close_first_in_append {t : Str} (h : ¬ fenceTicks <:+: t) :
    ∀ k, k < t.length → fenceClose.isPrefixOf ((t ++ fenceClose).drop k) = false := by
  intro k hk
  cases hb : fenceClose.isPrefixOf ((t ++ fenceClose).drop k) with
  | false => rfl
  | true =>
    exfalso
    have hpre : fenceClose <+: (t ++ fenceClose).drop k :=
      List.isPrefixOf_iff_prefix.mp hb
    rw [List.drop_append_eq_append_drop, Nat.sub_eq_zero_of_le (Nat.le_of_lt hk),
      List.drop_zero] at hpre
    cases hu : t.drop k with
    | nil =>
      have := congrArg List.length hu
      simp only [List.length_drop, List.length_nil] at this
      omega
    | cons c u =>
      rw [hu, List.cons_append,
        show fenceClose = '\n' :: fenceTicks from rfl, List.cons_prefix_cons] at hpre
      obtain ⟨-, hticks⟩ := hpre
      by_cases hlen : fenceTicks.length ≤ u.length
      · have h1 : fenceTicks <+: u := prefix_of_prefix_append hticks hlen
        have hu' : u = t.drop (k + 1) := by
          have := congrArg List.tail hu
          rw [List.tail_drop] at this
          simpa using this.symm
        exact h (h1.isInfix.trans (hu' ▸ List.drop_suffix (k + 1) t).isInfix)
      · push_neg at hlen
        have hlt : fenceTicks.length = 3 := rfl
        have h3 : fenceTicks = (u ++ fenceClose).take 3 := by
          have := List.prefix_iff_eq_take.mp hticks
          rwa [hlt] at this
        rw [List.take_append_eq_append_take,
          List.take_of_length_le (by omega : u.length ≤ 3),
          show 3 - u.length = (2 - u.length) + 1 by omega,
          show fenceClose = '\n' :: fenceTicks from rfl, List.take_succ_cons] at h3
        have hmem : '\n' ∈ fenceTicks := by
          rw [h3]
          exact List.mem_append_right _ (List.mem_cons_self _ _)
        exact absurd hmem (by decide)

/-- In a text free of the fence delimiter, splitting `t ++ fenceClose` at
the first closing fence captures exactly `t`. -/
theorem splitOnFirst_close_self {t : Str} (h : ¬ fenceTicks <:+: t) :
    splitOnFirst fenceClose (t ++ fenceClose) = some (t, []) := by
  have h1 := splitOnFirst_of_first fenceClose t []
    (by
      intro k hk
      have := close_first_in_append h k hk
      simpa using this)
  simpa using h1

/-- `matchFence` on a directly wrapped fence-free text captures the text. -/
theorem matchFence_wrap_self {t : Str} (h : ¬ fenceTicks <:+: t) (opener : Str) :
    matchFence opener (opener ++ (t ++ fenceClose)) = some t :=
  matchFence_eq (splitOnFirst_prefix_self opener (t ++ fenceClose))
    (splitOnFirst_close_self h)

/-- The labeled opener does not occur anywhere in the unlabeled-wrapped
fence-free text. -/
theorem no_jsonOpen_in_plain_wrap {t : Str} (h : ¬ fenceTicks <:+: t) :
    ¬ jsonOpen <:+: plainOpen ++ (t ++ fenceClose) := by
  intro hinf
  rcases infix_append_cases hinf with h1 | h2 | h3
  · exact absurd h1.length_le (by decide)
  · rcases infix_append_cases h2 with h4 | h5 | h6
    · exact h ((show fenceTicks <+: jsonOpen by decide).isInfix.trans h4)
    · exact absurd h5.length_le (by decide)
    · obtain ⟨p₁, p₂, hsplit, hp₁ne, hp₂ne, hp₁suf, hp₂pre⟩ := h6
      have hp₂take := List.prefix_iff_eq_take.mp hp₂pre
      have h1le : 1 ≤ p₂.length := List.length_pos.mpr hp₂ne
      have h4le : p₂.length ≤ 4 := by
        have := hp₂pre.length_le
        have hc4 : fenceClose.length = 4 := rfl
        omega
      obtain ⟨n, hn⟩ : ∃ n, p₂.length = n := ⟨_, rfl⟩
      rw [hn] at h1le h4le
      interval_cases n
      · rw [hn] at hp₂take
        have hp₂ : p₂ = ['\n'] := hp₂take
        have hjo : jsonOpen.length = 8 := rfl
        have hlen7 : p₁.length = 7 := by
          have := congrArg List.length hsplit
          rw [List.length_append, hp₂] at this
          simp only [List.length_cons, List.length_nil] at this
          omega
        have hp₁eq : p₁ = jsonOpen.take 7 := by
          rw [hsplit, List.take_left' hlen7]
        have hticks : fenceTicks <+: p₁ := by
          rw [hp₁eq]; decide
        exact h (hticks.isInfix.trans hp₁suf.isInfix)
      · rw [hn] at hp₂take
        rw [hp₂take] at hp₂ne hsplit
        have hp₂suf : fenceClose.take 2 <:+ jsonOpen := ⟨p₁, hsplit.symm⟩
        exact absurd hp₂suf (by decide)
      · rw [hn] at hp₂take
        rw [hp₂take] at hp₂ne hsplit
        have hp₂suf : fenceClose.take 3 <:+ jsonOpen := ⟨p₁, hsplit.symm⟩
        exact absurd hp₂suf (by decide)
      · rw [hn] at hp₂take
        rw [hp₂take] at hp₂ne hsplit
        have hp₂suf : fenceClose.take 4 <:+ jsonOpen := ⟨p₁, hsplit.symm⟩
        exact absurd hp₂suf (by decide)
  · obtain ⟨p₁, p₂, hsplit, hp₁ne, hp₂ne, hp₁suf, hp₂pre⟩ := h3
    have hp₁pre : p₁ <+: jsonOpen := ⟨p₂, hsplit.symm⟩
    have hp₁take := List.prefix_iff_eq_take.mp hp₁pre
    have h1le : 1 ≤ p₁.length := List.length_pos.mpr hp₁ne
    have h4le : p₁.length ≤ 4 := by
      have := hp₁suf.length_le
      have hpl : plainOpen.length = 4 := rfl
      omega
    obtain ⟨n, hn⟩ : ∃ n, p₁.length = n := ⟨_, rfl⟩
    rw [hn] at h1le h4le
    interval_cases n <;>
      (rw [hn] at hp₁take; rw [hp₁take] at hp₁suf; exact absurd hp₁suf (by decide))

/-- A text free of the fence delimiter matches neither fence expression
and is passed whole to the decoder. -/
theorem extractCandidate_no_ticks {t : Str} (h : ¬ fenceTicks <:+: t) :
    extractCandidate t = t := by
  have hj : matchFence jsonOpen t = none :=
    matchFence_eq_none (fun hinf => h ((show fenceTicks <+: jsonOpen by decide).isInfix.trans hinf))
  have hp : matchFence plainOpen t = none :=
    matchFence_eq_none (fun hinf => h ((show fenceTicks <+: plainOpen by decide).isInfix.trans hinf))
  simp only [extractCandidate, hj, hp]

/-- Wrapping a fence-free text in the labeled fence strips back to the
text. -/
theorem extractCandidate_json_wrap {t : Str} (h : ¬ fenceTicks <:+: t) :
    extractCandidate (jsonOpen ++ t ++ fenceClose) = t := by
  rw [List.append_assoc]
  simp only [extractCandidate, matchFence_wrap_self h jsonOpen]

/-- Wrapping a fence-free text in the unlabeled fence strips back to the
text. -/
theorem extractCandidate_plain_wrap {t : Str} (h : ¬ fenceTicks <:+: t) :
    extractCandidate (plainOpen ++ t ++ fenceClose) = t := by
  rw [List.append_assoc]
  simp only [extractCandidate, matchFence_eq_none (no_jsonOpen_in_plain_wrap h),
    matchFence_wrap_self h plainOpen]

/-- A successful `matchFence` exhibits the exact fenced shape it stripped,
with leftmost opener and shortest capture. -/
theorem matchFence_decomp {opener s c : Str} (h : matchFence opener s = some c) :
    ∃ pre post, s = pre ++ opener ++ c ++ fenceClose ++ post ∧
      (∀ k, k < pre.length → opener.isPrefixOf (s.drop k) = false) ∧
      (∀ k, k < c.length →
        fenceClose.isPrefixOf ((c ++ fenceClose ++ post).drop k) = false) := by
  cases h1 : splitOnFirst opener s with
  | none => simp only [matchFence, h1] at h; cases h
  | some pr =>
    obtain ⟨pre, after⟩ := pr
    cases h2 : splitOnFirst fenceClose after with
    | none => simp only [matchFence, h1, h2] at h; cases h
    | some pr2 =>
      obtain ⟨cap, post⟩ := pr2
      simp only [matchFence, h1, h2, Option.some.injEq] at h
      subst h
      refine ⟨pre, post, ?_, ?_, ?_⟩
      · rw [splitOnFirst_some h1, splitOnFirst_some h2]
        simp [List.append_assoc]
      · intro k hk
        exact splitOnFirst_first h1 k hk
      · intro k hk
        have h3 := splitOnFirst_first h2 k hk
        rwa [splitOnFirst_some h2] at h3

/-! ## Pipeline unfolding lemmas -/

/-- The synchronous stage on a successful analysis. -/
theorem uploadSync_ok {env : GenAIEnv} {u : Nat} {fb mt : Str} {db : DB} {cd : Json}
    (h : analyzeFile env fb mt = Except.ok cd) :
    uploadSync env u fb mt db =
      (UploadResponse.success db.nextId cd,
       { courses := db.courses ++ [createdRec db cd u], nextId := db.nextId + 1 },
       some (cd, createdRec db cd u)) := by
  simp [uploadSync, DB.insert, createdRec, h]

/-- The synchronous stage on a failed analysis. -/
theorem uploadSync_err {env : GenAIEnv} {u : Nat} {fb mt : Str} {db : DB}
    {e : PipelineError} (h : analyzeFile env fb mt = Except.error e) :
    uploadSync env u fb mt db = (UploadResponse.failure, db, none) := by
  simp [uploadSync, h]

/-- The background task when the Q&A derivation throws. -/
theorem backgroundTask_qna_err {env : GenAIEnv} {cd : Json} {course : CourseRec}
    {db : DB} {e : PipelineError}
    (h : qna env (Json.stringify cd) = Except.error e) :
    backgroundTask env cd course db = (db, [BgEvent.qnaAttempt]) := by
  simp [backgroundTask, h]

/-- The background task when Q&A succeeds but the flashcard derivation
throws. -/
theorem backgroundTask_flash_err {env : GenAIEnv} {cd : Json} {course : CourseRec}
    {db : DB} {q : Json} {e : PipelineError}
    (hq : qna env (Json.stringify cd) = Except.ok q)
    (hf : generateFlashcards env (Json.stringify cd) = Except.error e) :
    backgroundTask env cd course db =
      (db, [BgEvent.qnaAttempt, BgEvent.flashAttempt]) := by
  simp [backgroundTask, hq, hf]

/-- The background task when both derivations succeed. -/
theorem backgroundTask_ok {env : GenAIEnv} {cd : Json} {course : CourseRec}
    {db : DB} {q f : Json}
    (hq : qna env (Json.stringify cd) = Except.ok q)
    (hf : generateFlashcards env (Json.stringify cd) = Except.ok f) :
    backgroundTask env cd course db =
      (db.saveById { course with qna := Json.stringify q,
                                 flashCard := Json.stringify f },
       [BgEvent.qnaAttempt, BgEvent.flashAttempt, BgEvent.saveWrite]) := by
  simp [backgroundTask, hq, hf]

/-- Mapping a function that fixes every element is the identity. -/
theorem map_id_of_fixed {α : Type} {l : List α} {g : α → α}
    (h : ∀ r ∈ l, g r = r) : l.map g = l := by
  induction l with
  | nil => rfl
  | cons a t ih => simp [h a (by simp), ih (fun r hr => h r (by simp [hr]))]

/-- `find?` skips a block on which the predicate is everywhere false. -/
theorem find?_append_of_false {α : Type} {l1 l2 : List α} {p : α → Bool}
    (h : ∀ r ∈ l1, p r = false) : (l1 ++ l2).find? p = l2.find? p := by
  induction l1 with
  | nil => rfl
  | cons a t ih =>
    rw [List.cons_append, List.find?_cons_of_neg _ (by simp [h a (by simp)])]
    exact ih (fun r hr => h r (by simp [hr]))

/-- A second `save()` against the store right after an insert with a fresh
id replaces exactly the inserted document. -/
theorem saveById_insert {db : DB} (hfresh : db.freshIds) (r0 upd : CourseRec)
    (h0 : r0.id = db.nextId) (hupd : upd.id = db.nextId) :
    (DB.saveById { courses := db.courses ++ [r0], nextId := db.nextId + 1 }
        upd).courses = db.courses ++ [upd] := by
  unfold DB.saveById
  simp only [List.map_append, List.map_cons, List.map_nil]
  rw [map_id_of_fixed (fun r hr => by
    have hlt := hfresh r hr
    rw [if_neg]
    rw [hupd]
    omega)]
  rw [if_pos (by rw [h0, hupd])]

/-! ## The claims -/

/-- C6, counterexample: fence-stripping is not always a no-op on the
decoded result.  For the text `5\n(fence)\n6\n(fence)`, the unwrapped
parse strips the embedded unlabeled block and decodes `6`, while the
`json`-labeled wrap makes the lazy capture stop at the embedded closing
fence and decodes `5`. -/
theorem c6_fence_noop_counterexample :
    parseAIResponse (jsonOpen ++ "5\n```\n6\n```".data ++ fenceClose) =
        Except.ok (Json.numVal ['5']) ∧
    parseAIResponse "5\n```\n6\n```".data = Except.ok (Json.numVal ['6']) ∧
    parseAIResponse (jsonOpen ++ "5\n```\n6\n```".data ++ fenceClose) ≠
        parseAIResponse "5\n```\n6\n```".data := by
  refine ⟨rfl, rfl, ?_⟩
  intro hcontra
  rw [show parseAIResponse (jsonOpen ++ "5\n```\n6\n```".data ++ fenceClose) =
        Except.ok (Json.numVal ['5']) from rfl,
      show parseAIResponse "5\n```\n6\n```".data =
        Except.ok (Json.numVal ['6']) from rfl] at hcontra
  injection hcontra with h1
  injection h1 with h2
  exact absurd h2 (by decide)

/-- C6, amended: for every text that contains no fence delimiter (no
occurrence of three backticks), the Response Parser applied to the text
wrapped in a fenced code block — labeled `json` or unlabeled — yields the
same result as applied to the unwrapped text. -/
theorem c6_fence_noop_amended (t : Str) (h : ¬ fenceTicks <:+: t) :
    parseAIResponse (jsonOpen ++ t ++ fenceClose) = parseAIResponse t ∧
    parseAIResponse (plainOpen ++ t ++ fenceClose) = parseAIResponse t := by
  constructor
  · unfold parseAIResponse
    rw [extractCandidate_json_wrap h, extractCandidate_no_ticks h]
  · unfold parseAIResponse
    rw [extractCandidate_plain_wrap h, extractCandidate_no_ticks h]

/-- Witness for the amended C6 at the concrete fence-free text `5`. -/
theorem c6_fence_noop_amended_witness :
    parseAIResponse (jsonOpen ++ "5".data ++ fenceClose) = parseAIResponse "5".data ∧
    parseAIResponse (plainOpen ++ "5".data ++ fenceClose) = parseAIResponse "5".data :=
  c6_fence_noop_amended "5".data (by decide)

/-- C7: whenever the candidate content does not decode as JSON (the empty
string included), `parseAIResponse` fails with the `MalformedResponse`
error and yields no partial result; it succeeds with a value exactly when
decoding yields that value. -/
theorem c7_malformed_response (s : Str) :
    (jsonParse (extractCandidate s) = none →
      parseAIResponse s = Except.error PipelineError.malformedResponse) ∧
    (∀ v, parseAIResponse s = Except.ok v ↔ jsonParse (extractCandidate s) = some v) ∧
    parseAIResponse [] = Except.error PipelineError.malformedResponse := by
  refine ⟨?_, ?_, rfl⟩
  · intro hnone
    simp only [parseAIResponse, hnone]
  · intro v
    cases hj : jsonParse (extractCandidate s) with
    | none => simp [parseAIResponse, hj]
    | some a => simp [parseAIResponse, hj]

/-- Witness for C7: the empty reply fails with `MalformedResponse`. -/
theorem c7_malformed_response_witness :
    parseAIResponse [] = Except.error PipelineError.malformedResponse :=
  (c7_malformed_response []).2.2

/-- C10: the parser strips a fenced block only in the exact shape
`opener ++ inner ++ closer` where the opener (three backticks, optionally
labeled `json`) is immediately followed by a newline and the closer's
three backticks are immediately preceded by one; a `json`-labeled block is
preferred over an unlabeled one, the leftmost opener and the shortest
capture are taken, and a text with no such shape is passed whole to the
JSON decoder. -/
theorem c10_fence_exact_shape (s : Str) :
    (∀ c, matchFence jsonOpen s = some c → extractCandidate s = c) ∧
    (matchFence jsonOpen s = none → ∀ c, matchFence plainOpen s = some c →
      extractCandidate s = c) ∧
    (∀ c, matchFence jsonOpen s = some c →
      ∃ pre post, s = pre ++ jsonOpen ++ c ++ fenceClose ++ post ∧
        (∀ k, k < pre.length → jsonOpen.isPrefixOf (s.drop k) = false) ∧
        (∀ k, k < c.length →
          fenceClose.isPrefixOf ((c ++ fenceClose ++ post).drop k) = false)) ∧
    (∀ c, matchFence plainOpen s = some c →
      ∃ pre post, s = pre ++ plainOpen ++ c ++ fenceClose ++ post ∧
        (∀ k, k < pre.length → plainOpen.isPrefixOf (s.drop k) = false) ∧
        (∀ k, k < c.length →
          fenceClose.isPrefixOf ((c ++ fenceClose ++ post).drop k) = false)) ∧
    ((¬ ∃ pre mid post, s = pre ++ jsonOpen ++ mid ++ fenceClose ++ post) →
     (¬ ∃ pre mid post, s = pre ++ plainOpen ++ mid ++ fenceClose ++ post) →
      extractCandidate s = s ∧
      (jsonParse s = none →
        parseAIResponse s = Except.error PipelineError.malformedResponse) ∧
      (∀ v, jsonParse s = some v → parseAIResponse s = Except.ok v)) := by
  refine ⟨?_, ?_, ?_, ?_, ?_⟩
  · intro c hc
    simp only [extractCandidate, hc]
  · intro hnone c hc
    simp only [extractCandidate, hnone, hc]
  · intro c hc
    exact matchFence_decomp hc
  · intro c hc
    exact matchFence_decomp hc
  · intro hnoJson hnoPlain
    have hjn : matchFence jsonOpen s = none := by
      cases hmf : matchFence jsonOpen s with
      | none => rfl
      | some c =>
        exfalso
        obtain ⟨pre, post, hdec, -, -⟩ := matchFence_decomp hmf
        exact hnoJson ⟨pre, c, post, hdec⟩
    have hpn : matchFence plainOpen s = none := by
      cases hmf : matchFence plainOpen s with
      | none => rfl
      | some c =>
        exfalso
        obtain ⟨pre, post, hdec, -, -⟩ := matchFence_decomp hmf
        exact hnoPlain ⟨pre, c, post, hdec⟩
    have hext : extractCandidate s = s := by
      simp only [extractCandidate, hjn, hpn]
    refine ⟨hext, ?_, ?_⟩
    · intro hnone
      simp only [parseAIResponse, hext, hnone]
    · intro v hv
      simp only [parseAIResponse, hext, hv]

/-- Witness for C10 at a concrete labeled fenced reply. -/
theorem c10_fence_exact_shape_witness :
    matchFence jsonOpen "```json\n7\n```".data = some ['7'] ∧
    extractCandidate "```json\n7\n```".data = ['7'] :=
  ⟨rfl, (c10_fence_exact_shape "```json\n7\n```".data).1 ['7'] rfl⟩

/-- The whole upload request on a successful analysis: respond with the
created record and run the background task over the store holding it. -/
theorem uploadHandler_ok {env : GenAIEnv} {u : Nat} {fb mt : Str} {db : DB}
    {cd : Json} (h : analyzeFile env fb mt = Except.ok cd) :
    uploadHandler env u fb mt db =
      (UploadResponse.success db.nextId cd,
       backgroundTask env cd (createdRec db cd u)
         { courses := db.courses ++ [createdRec db cd u], nextId := db.nextId + 1 }) := by
  simp [uploadHandler, uploadSync_ok h]

/-- The whole upload request on a failed analysis: failure response, store
untouched, no background events. -/
theorem uploadHandler_err {env : GenAIEnv} {u : Nat} {fb mt : Str} {db : DB}
    {e : PipelineError} (h : analyzeFile env fb mt = Except.error e) :
    uploadHandler env u fb mt db = (UploadResponse.failure, db, []) := by
  simp [uploadHandler, uploadSync_err h]

/-- C1, counterexample: a failure of the Q&A derivation does prevent the
flashcard derivation — with an environment whose analysis reply decodes but
whose Q&A call fails, the background trace is only the Q&A attempt and
contains no flashcard attempt. -/
theorem c1_both_attempted_counterexample :
    analyzeFile envC1 [] [] = Except.ok (Json.numVal ['0']) ∧
    (uploadHandler envC1 7 [] [] dbEmpty).2.2 = [BgEvent.qnaAttempt] ∧
    BgEvent.flashAttempt ∉ (uploadHandler envC1 7 [] [] dbEmpty).2.2 := by
  refine ⟨rfl, rfl, ?_⟩
  intro hmem
  rw [show (uploadHandler envC1 7 [] [] dbEmpty).2.2 = [BgEvent.qnaAttempt] from rfl] at hmem
  simp at hmem

/-- C1, amended: after a successful analysis the background task always
attempts the Q&A derivation; it attempts the flashcard derivation exactly
when the Q&A derivation succeeded, and a Q&A failure terminates the task
with only the Q&A attempt in its trace. -/
theorem c1_qna_failure_skips_flashcards (env : GenAIEnv) (u : Nat) (fb mt : Str)
    (db : DB) (cd : Json) (h : analyzeFile env fb mt = Except.ok cd) :
    BgEvent.qnaAttempt ∈ (uploadHandler env u fb mt db).2.2 ∧
    (∀ q, qna env (Json.stringify cd) = Except.ok q →
      BgEvent.flashAttempt ∈ (uploadHandler env u fb mt db).2.2) ∧
    (∀ e, qna env (Json.stringify cd) = Except.error e →
      (uploadHandler env u fb mt db).2.2 = [BgEvent.qnaAttempt]) := by
  rw [uploadHandler_ok h]
  cases hq : qna env (Json.stringify cd) with
  | error e =>
    rw [backgroundTask_qna_err hq]
    refine ⟨by simp, ?_, fun e' _ => rfl⟩
    intro q hcontra
    cases hcontra
  | ok q =>
    cases hf : generateFlashcards env (Json.stringify cd) with
    | error e =>
      rw [backgroundTask_flash_err hq hf]
      refine ⟨by simp, fun q' _ => by simp, ?_⟩
      intro e' hcontra
      cases hcontra
    | ok f =>
      rw [backgroundTask_ok hq hf]
      refine ⟨by simp, fun q' _ => by simp, ?_⟩
      intro e' hcontra
      cases hcontra

/-- Witness for the amended C1 with an all-successful environment. -/
theorem c1_qna_failure_skips_flashcards_witness :
    BgEvent.qnaAttempt ∈ (uploadHandler envOk 7 [] [] dbEmpty).2.2 :=
  (c1_qna_failure_skips_flashcards envOk 7 [] [] dbEmpty (Json.numVal ['0']) rfl).1

/-- C2: when either derivation of the detached stage fails, the caller
still gets the success response fixed by the synchronous stage, the store
keeps exactly the record as created — its `qna` and `flashCard` still the
pending sentinel, no failure marker written — and no save is performed by
the background task. -/
theorem c2_detached_failure_pending (env : GenAIEnv) (u : Nat) (fb mt : Str)
    (db : DB) (cd : Json)
    (h : analyzeFile env fb mt = Except.ok cd)
    (hfail : (∃ e, qna env (Json.stringify cd) = Except.error e) ∨
             (∃ e, generateFlashcards env (Json.stringify cd) = Except.error e)) :
    (uploadHandler env u fb mt db).1 = UploadResponse.success db.nextId cd ∧
    (uploadHandler env u fb mt db).2.1 =
      { courses := db.courses ++ [createdRec db cd u], nextId := db.nextId + 1 } ∧
    (createdRec db cd u).qna = pendingSentinel ∧
    (createdRec db cd u).flashCard = pendingSentinel ∧
    BgEvent.saveWrite ∉ (uploadHandler env u fb mt db).2.2 := by
  rw [uploadHandler_ok h]
  cases hq : qna env (Json.stringify cd) with
  | error e =>
    rw [backgroundTask_qna_err hq]
    exact ⟨rfl, rfl, rfl, rfl, by simp⟩
  | ok q =>
    cases hf : generateFlashcards env (Json.stringify cd) with
    | ok f =>
      exfalso
      rcases hfail with ⟨e, he⟩ | ⟨e, he⟩
      · rw [hq] at he; cases he
      · rw [hf] at he; cases he
    | error e =>
      rw [backgroundTask_flash_err hq hf]
      exact ⟨rfl, rfl, rfl, rfl, by simp⟩

/-- Witness for C2 with the Q&A-failing environment. -/
theorem c2_detached_failure_pending_witness :
    (uploadHandler envC1 7 [] [] dbEmpty).1 =
      UploadResponse.success dbEmpty.nextId (Json.numVal ['0']) :=
  (c2_detached_failure_pending envC1 7 [] [] dbEmpty (Json.numVal ['0']) rfl
    (Or.inl ⟨PipelineError.modelUnavailable, rfl⟩)).1

/-- C3: when both derivations succeed, the final store holds the created
record with `qna` and `flashCard` set to the serialized parsed generator
outputs and every other field — `json` content, `title`, `id`, `user` —
unchanged from creation; all other records are untouched. -/
theorem c3_enriched_record (env : GenAIEnv) (u : Nat) (fb mt : Str) (db : DB)
    (cd q f : Json) (hfresh : db.freshIds)
    (h : analyzeFile env fb mt = Except.ok cd)
    (hq : qna env (Json.stringify cd) = Except.ok q)
    (hf : generateFlashcards env (Json.stringify cd) = Except.ok f) :
    (uploadHandler env u fb mt db).2.1.courses =
      db.courses ++
        [{ id := db.nextId, title := cd.getField courseTitleKey,
           json := Json.stringify cd, qna := Json.stringify q,
           flashCard := Json.stringify f, user := u }] := by
  rw [uploadHandler_ok h, backgroundTask_ok hq hf]
  show (DB.saveById _ _).courses = _
  rw [saveById_insert hfresh _ _ rfl rfl]
  simp [createdRec]

/-- Witness for C3 with the all-successful environment over the empty
store. -/
theorem c3_enriched_record_witness :
    (uploadHandler envOk 7 [] [] dbEmpty).2.1.courses =
      dbEmpty.courses ++
        [{ id := dbEmpty.nextId,
           title := Json.getField (Json.numVal ['0']) courseTitleKey,
           json := Json.stringify (Json.numVal ['0']),
           qna := Json.stringify (Json.numVal ['1']),
           flashCard := Json.stringify (Json.numVal ['2']), user := 7 }] :=
  c3_enriched_record envOk 7 [] [] dbEmpty (Json.numVal ['0']) (Json.numVal ['1'])
    (Json.numVal ['2']) (by intro r hr; simp [dbEmpty] at hr) rfl rfl rfl

/-- C4: the record persisted synchronously before the response has
`json` equal to the serialized analysis result, `title` equal to the
result's `courseTitle`, `user` equal to the caller, and both `qna` and
`flashCard` equal to the pending sentinel `"loading"`; a reader fetching
by id before the detached stage completes observes exactly this record. -/
theorem c4_created_record_fields (env : GenAIEnv) (u : Nat) (fb mt : Str) (db : DB)
    (cd : Json) (hfresh : db.freshIds)
    (h : analyzeFile env fb mt = Except.ok cd) :
    (uploadSync env u fb mt db).1 = UploadResponse.success db.nextId cd ∧
    (uploadSync env u fb mt db).2.1.courses = db.courses ++ [createdRec db cd u] ∧
    (createdRec db cd u).json = Json.stringify cd ∧
    (createdRec db cd u).title = cd.getField courseTitleKey ∧
    (createdRec db cd u).user = u ∧
    (createdRec db cd u).qna = "loading".data ∧
    (createdRec db cd u).flashCard = "loading".data ∧
    getCourseById (uploadSync env u fb mt db).2.1 u db.nextId =
      some (createdRec db cd u) := by
  rw [uploadSync_ok h]
  refine ⟨rfl, rfl, rfl, rfl, rfl, rfl, rfl, ?_⟩
  have h1 : ∀ r ∈ db.courses, (r.id == db.nextId && r.user == u) = false := by
    intro r hr
    have hlt := hfresh r hr
    have : (r.id == db.nextId) = false := by
      simp only [beq_eq_false_iff_ne, ne_eq]
      omega
    simp [this]
  show List.find? _ (db.courses ++ [createdRec db cd u]) = _
  rw [find?_append_of_false h1]
  simp [createdRec]

/-- Witness for C4 with the all-successful environment. -/
theorem c4_created_record_fields_witness :
    (uploadSync envOk 7 [] [] dbEmpty).1 =
      UploadResponse.success dbEmpty.nextId (Json.numVal ['0']) :=
  (c4_created_record_fields envOk 7 [] [] dbEmpty (Json.numVal ['0'])
    (by intro r hr; simp [dbEmpty] at hr) rfl).1

/-- C5: when the synchronous analysis fails, the caller gets the failure
response, the store is exactly as before the request — no record created,
the owner's listing unchanged — and no background work happens. -/
theorem c5_failed_analysis_no_record (env : GenAIEnv) (u : Nat) (fb mt : Str)
    (db : DB) (e : PipelineError)
    (h : analyzeFile env fb mt = Except.error e) :
    uploadHandler env u fb mt db = (UploadResponse.failure, db, []) ∧
    getCourses (uploadHandler env u fb mt db).2.1 u = getCourses db u := by
  constructor
  · exact uploadHandler_err h
  · rw [uploadHandler_err h]

/-- Witness for C5 with the failing-analysis environment. -/
theorem c5_failed_analysis_no_record_witness :
    uploadHandler envBad 7 [] [] dbEmpty = (UploadResponse.failure, dbEmpty, []) :=
  (c5_failed_analysis_no_record envBad 7 [] [] dbEmpty
    PipelineError.modelUnavailable rfl).1

/-- C8: reads are owner-scoped — under distinct owners A and B, a record of
owner A never appears in B's listing (no listed id equals its id), and B's
fetch-by-id against A's id answers not-found. -/
theorem c8_owner_scoping (db : DB) (A B : Nat) (r : CourseRec)
    (hAB : A ≠ B) (hr : r ∈ db.courses) (hrA : r.user = A)
    (huniq : ∀ r' ∈ db.courses, r'.id = r.id → r' = r) :
    (∀ p ∈ getCourses db B, p.1 ≠ r.id) ∧
    (r.id, r.title) ∉ getCourses db B ∧
    getCourseById db B r.id = none := by
  have hmain : ∀ p ∈ getCourses db B, p.1 ≠ r.id := by
    intro p hp
    unfold getCourses at hp
    rw [List.mem_map] at hp
    obtain ⟨r', hr', rfl⟩ := hp
    rw [List.mem_filter] at hr'
    obtain ⟨hmem, huser⟩ := hr'
    intro hid
    have heq : r' = r := huniq r' hmem (by simpa using hid)
    subst heq
    rw [hrA] at huser
    exact hAB (by simpa using huser)
  refine ⟨hmain, fun hmem => hmain _ hmem rfl, ?_⟩
  unfold getCourseById
  rw [List.find?_eq_none]
  intro r' hr' hp
  rw [Bool.and_eq_true] at hp
  obtain ⟨h1, h2⟩ := hp
  have heq : r' = r := huniq r' hr' (by simpa using h1)
  subst heq
  rw [hrA] at h2
  exact hAB (by simpa using h2)

/-- Witness for C8 with a one-record store owned by user 0, read as
user 1. -/
theorem c8_owner_scoping_witness : getCourseById dbA 1 0 = none :=
  (c8_owner_scoping dbA 0 1 recA (by decide) (by simp [dbA])
    rfl (by intro r' hr' _; simpa [dbA] using hr')).2.2

/-- C9: the detached stage performs at most one save, and only after both
derivations succeeded: the store after the background task either equals
the store before it, or holds the one atomic update that sets `qna` and
`flashCard` together to the serialized generator outputs — a reader can
never observe one field generated while the other is still pending. -/
theorem c9_both_fields_or_neither (env : GenAIEnv) (cd : Json)
    (course : CourseRec) (db : DB) :
    List.count BgEvent.saveWrite (backgroundTask env cd course db).2 ≤ 1 ∧
    ((backgroundTask env cd course db).1 = db ∨
      ∃ q f, qna env (Json.stringify cd) = Except.ok q ∧
        generateFlashcards env (Json.stringify cd) = Except.ok f ∧
        (backgroundTask env cd course db).1 =
          db.saveById { course with qna := Json.stringify q,
                                    flashCard := Json.stringify f }) := by
  cases hq : qna env (Json.stringify cd) with
  | error e =>
    rw [backgroundTask_qna_err hq]
    exact ⟨by show List.count BgEvent.saveWrite [BgEvent.qnaAttempt] ≤ 1; decide,
      Or.inl rfl⟩
  | ok q =>
    cases hf : generateFlashcards env (Json.stringify cd) with
    | error e =>
      rw [backgroundTask_flash_err hq hf]
      exact ⟨by
        show List.count BgEvent.saveWrite [BgEvent.qnaAttempt, BgEvent.flashAttempt] ≤ 1
        decide,
        Or.inl rfl⟩
    | ok f =>
      rw [backgroundTask_ok hq hf]
      exact ⟨by
        show List.count BgEvent.saveWrite
          [BgEvent.qnaAttempt, BgEvent.flashAttempt, BgEvent.saveWrite] ≤ 1
        decide,
        Or.inr ⟨q, f, rfl, rfl, rfl⟩⟩

end GGB
